import Mathlib

/-!
# i18n: translation lookup, pluralisation and catalog loading

A shallow embedding of `src/i18n.go` (package `i18n`) and the properties of
`Print`, `Plural`, the language accessors and `Load`.

Conventions of the embedding

* A Go `interface{}` value is a `Value`; the nil interface is `Value.nil`.
* A Go map is an association list read with `List.lookup` (first binding of a
  key); reading an absent key yields the zero value, as in Go.
* A run-time panic is a `Fault`; a function that can panic returns `Except Fault _`.
* The package variables `data` and `debug` and the lines written through the
  `log` package form the `World` that every call receives and hands back.
* `fmt.Sprintf` belongs to the Go standard library, not to this package: `Print`
  and `Plural` take it as the parameter `Sprintf`, and the general theorems hold
  for every such function.
* The file system `Load` walks is a tree of `Node`s; `filepath.Walk` is the
  sequence of calls it makes of the walk function, ended by the first call that
  does not return nil.
-/

namespace I18n

/-! ## Values, faults and the package state -/

/-- A dynamically typed Go value (`interface{}`): the nil interface, the values
`encoding/json` stores into an `interface{}` (string, float64, bool,
`[]interface{}`, `map[string]interface{}`), and `int`, the type of the count
that `Plural` puts in front of its arguments. A float64 is carried as its
IEEE-754 bit pattern. -/
inductive Value where
  | nil
  | string (s : String)
  | int (n : Int)
  | bool (b : Bool)
  | float64 (bits : Nat)
  | array (elems : List Value)
  | object (fields : List (String × Value))

/-- The run-time panics the package can raise. -/
inductive Fault where
  /-- Panic of `reflect.Value.Type` on the zero `reflect.Value`. -/
  | zeroValueType
  /-- Panic of a failed type assertion `x.(string)`. -/
  | interfaceConversion
  /-- Panic of `values[0]` on an empty slice. -/
  | indexOutOfRange
  /-- Panic of `path[n:]` with `n` beyond the length of `path`. -/
  | sliceBounds
  deriving DecidableEq, Repr

/-- Equality of outcomes `Except ε α` is decidable when it is on `ε` and `α`. -/
instance decEqExcept {ε α : Type} [DecidableEq ε] [DecidableEq α] : DecidableEq (Except ε α)
  | .ok a, .ok b =>
    if h : a = b then isTrue (congrArg Except.ok h) else isFalse fun h1 => h (Except.ok.inj h1)
  | .error a, .error b =>
    if h : a = b then isTrue (congrArg Except.error h)
    else isFalse fun h1 => h (Except.error.inj h1)
  | .ok _, .error _ => isFalse fun h => Except.noConfusion h
  | .error _, .ok _ => isFalse fun h => Except.noConfusion h

/-- Go `type language map[string]interface{}`: one language table. -/
abbrev language := List (String × Value)

/-- Go `map[string]language`, the type of the package variable `data`. A map
value of type `language` may itself be the nil map, which is `none` here. -/
abbrev Catalog := List (String × Option language)

/-- Go `I18N`: a translator, holding its current language. -/
structure I18N where
  language : String
  deriving DecidableEq, Repr

/-- The package-level state: the variables `data` and `debug`, and the lines
handed to the `log` package so far (oldest first). -/
structure World where
  data : Catalog
  debug : Bool
  log : List String

/-- What a call leaves behind: the returned string or the panic, the package
state after the call and the receiver after the call. -/
structure Outcome where
  ret : Except Fault String
  world : World
  self : I18N

/-- Go `x == nil` / `x != nil` on an `interface{}` value. -/
def Value.isNil : Value → Bool
  | .nil => true
  | _ => false

/-- Whether the dynamic type of the value is `string`. -/
def Value.isString : Value → Bool
  | .string _ => true
  | _ => false

/-- Go `reflect.ValueOf(x).Type().String()`: the name of the dynamic type.
`reflect.ValueOf` of the nil interface is the zero `reflect.Value`, on which
`Type` panics. -/
def typeString : Value → Except Fault String
  | .nil => .error .zeroValueType
  | .string _ => .ok "string"
  | .int _ => .ok "int"
  | .bool _ => .ok "bool"
  | .float64 _ => .ok "float64"
  | .array _ => .ok "[]interface \x7b\x7d"
  | .object _ => .ok "map[string]interface \x7b\x7d"

/-- Go type assertion `x.(string)`: panics unless the dynamic type is `string`. -/
def assertString : Value → Except Fault String
  | .string s => .ok s
  | _ => .error .interfaceConversion

/-- Go `data[name]` on the catalog: the table stored under `name`, the nil map
(`none`) when the key is absent or bound to a nil map. -/
def dataIndex (data : Catalog) (name : String) : Option language :=
  (data.lookup name).join

/-- Go `table[key]` on a value of type `language`: the stored value, the nil
interface when the key is absent; reading the nil map also yields nil. -/
def langIndex (table : Option language) (key : String) : Value :=
  match table with
  | none => Value.nil
  | some t => (t.lookup key).getD Value.nil

/-- Go `strings.Contains(s, substr)`. -/
def strings.Contains (s substr : String) : Bool :=
  decide (substr.data <:+: s.data)

/-- Every value stored in a table of the catalog is a string. -/
def Catalog.allStrings (data : Catalog) : Bool :=
  data.all fun e =>
    match e.2 with
    | none => true
    | some t => t.all fun kv => kv.2.isString

/-! ## The translator -/

/-- Go `New`. -/
def New (lang : String) : I18N :=
  { language := lang }

/-- Go `(*I18N).SetLang`. -/
def I18N.SetLang (_i : I18N) (lang : String) : I18N :=
  { language := lang }

/-- Go `(*I18N).GetLang`. -/
def I18N.GetLang (i : I18N) : String :=
  i.language

/-- Lines 87-93 of `Print`, the check for a language change: the language the
lookup uses and the arguments left for formatting. The condition is evaluated
left to right; its second operand panics on a nil last argument. -/
def Print.override (data : Catalog) (i : I18N) (args : List Value) :
    Except Fault (String × List Value) :=
  match args.getLast? with
  | none => .ok (i.language, args)
  | some last =>
    match typeString last with
    | .error e => .error e
    | .ok ty =>
      if ty == "string" then
        match assertString last with
        | .error e => .error e
        | .ok name =>
          if (dataIndex data name).isSome then .ok (name, args.dropLast)
          else .ok (i.language, args)
      else .ok (i.language, args)

/-- The line `log.Printf` writes for a missing translation (without the
time stamp the logger puts in front). -/
def missingLine (lang str : String) : String :=
  "WARNING: missing translation: [" ++ lang ++ "] " ++ str

/-- The condition of line 96, `data[language] == nil || data[language][str] == nil`:
the language has no table or the table yields nil for the key. -/
def isMiss (data : Catalog) (lang str : String) : Bool :=
  (dataIndex data lang).isNone || (langIndex (dataIndex data lang) str).isNil

/-- Lines 95-112 of `Print`: lookup of `str` in the table of `lang` and
formatting against `args`. -/
def Print.translate (Sprintf : String → List Value → String) (w : World) (i : I18N)
    (lang : String) (str : String) (args : List Value) : Outcome :=
  if isMiss w.data lang str then
    let w1 : World := if w.debug then { w with log := w.log ++ [missingLine lang str] } else w
    if decide (args.length > 0) && strings.Contains str "%" then
      ⟨.ok (Sprintf str args), w1, i⟩
    else
      ⟨.ok str, w1, i⟩
  else if decide (args.length > 0) && strings.Contains str "%" then
    match assertString (langIndex (dataIndex w.data lang) str) with
    | .error e => ⟨.error e, w, i⟩
    | .ok v => ⟨.ok (Sprintf v args), w, i⟩
  else
    match assertString (langIndex (dataIndex w.data lang) str) with
    | .error e => ⟨.error e, w, i⟩
    | .ok v => ⟨.ok v, w, i⟩

/-- Go `(*I18N).Print`. -/
def Print (Sprintf : String → List Value → String) (w : World) (i : I18N)
    (str : String) (args : List Value) : Outcome :=
  match Print.override w.data i args with
  | .error e => ⟨.error e, w, i⟩
  | .ok (lang, rest) => Print.translate Sprintf w i lang str rest

/-- Go `(*I18N).Plural`. The count is a Go `int`; no arithmetic is done on it,
so it is read as an integer. -/
def Plural (Sprintf : String → List Value → String) (w : World) (i : I18N)
    (value : Int) (zero one many : String) (values : List Value) : Outcome :=
  match values with
  | [] => ⟨.error .indexOutOfRange, w, i⟩
  | first :: tail =>
    match assertString first with
    | .error e => ⟨.error e, w, i⟩
    | .ok s =>
      let values1 := if s == "" then tail else first :: tail
      let values2 := Value.int value :: values1
      if value ≤ 0 then Print Sprintf w i zero values2
      else if value = 1 then Print Sprintf w i one values2
      else if value > 1 then Print Sprintf w i many values2
      else ⟨.ok "", w, i⟩

/-! ## A fragment of `fmt.Sprintf`

The concrete formatter below is used where an example needs an actual string
such as `"Hello World"`. It follows the documentation of the Go package `fmt`
for the plain verbs `%s`, `%d`, `%v` and `%%` on nil, string, int and bool
operands, including the forms `%!verb(type=value)` for a verb that does not fit
its operand, `%!verb(MISSING)` for a missing operand, `%!(EXTRA ...)` for
unused operands and `%!(NOVERB)` for a lone trailing percent sign. Flags,
widths, other verbs and operands of other types are outside the fragment.
-/

/-- The text `%v` prints for an operand of the fragment. -/
def fmt.plain : Value → Option String
  | .nil => some "<nil>"
  | .string s => some s
  | .int n => some (toString n)
  | .bool b => some (if b then "true" else "false")
  | _ => none

/-- The `type=value` text of the bad-verb and EXTRA forms (`<nil>` for nil). -/
def fmt.typed : Value → Option String
  | .nil => some "<nil>"
  | .string s => some ("string=" ++ s)
  | .int n => some ("int=" ++ toString n)
  | .bool b => some ("bool=" ++ (if b then "true" else "false"))
  | _ => none

/-- One directive `%verb` applied to its operand. -/
def fmt.directive (verb : Char) (v : Value) : Option String :=
  match verb, v with
  | 'v', x => fmt.plain x
  | 's', .string s => some s
  | 'd', .int n => some (toString n)
  | c, x =>
    if c = 's' ∨ c = 'd' then
      (fmt.typed x).map fun t => "%!" ++ c.toString ++ "(" ++ t ++ ")"
    else none

/-- The `%!(EXTRA ...)` text for the operands no directive consumed. -/
def fmt.extra (rest : List Value) : Option String :=
  (rest.mapM fmt.typed).map fun ts => "%!(EXTRA " ++ ", ".intercalate ts ++ ")"

/-- The scan of the format string, operands consumed left to right; `none`
outside the fragment. -/
def fmt.scan : List Char → List Value → Option String
  | [], [] => some ""
  | [], v :: vs => fmt.extra (v :: vs)
  | [ '%' ], [] => some "%!(NOVERB)"
  | [ '%' ], v :: vs => (fmt.extra (v :: vs)).map fun r => "%!(NOVERB)" ++ r
  | '%' :: '%' :: cs, vs => (fmt.scan cs vs).map fun r => "%" ++ r
  | '%' :: c :: cs, [] =>
    if c = 's' ∨ c = 'd' ∨ c = 'v' then
      (fmt.scan cs []).map fun r => "%!" ++ c.toString ++ "(MISSING)" ++ r
    else none
  | '%' :: c :: cs, v :: vs =>
    match fmt.directive c v with
    | none => none
    | some t => (fmt.scan cs vs).map fun r => t ++ r
  | c :: cs, vs => (fmt.scan cs vs).map fun r => c.toString ++ r

/-- The formatter of the fragment as a total function: the empty string stands
for every call outside the fragment. -/
def fmt.Sprintf (format : String) (a : List Value) : String :=
  (fmt.scan format.data a).getD ""

/-! ## Namespace derivation in `Load`

Paths are those of a Unix system (`filepath.Separator` is the slash). The
functions of `path/filepath` and `strings` are embedded from their Go
documentation.
-/

/-- Go `filepath.Separator` (Unix). -/
def filepath.Separator : Char := '/'

/-- The loop of Go `filepath.Ext`, run over the reversed path: stop at the
first separator, return the suffix that starts at the first dot met. -/
def filepath.Ext.scan : List Char → List Char → List Char
  | [], _ => []
  | c :: rest, acc =>
    if c = filepath.Separator then []
    else if c = '.' then '.' :: acc
    else filepath.Ext.scan rest (c :: acc)

/-- Go `filepath.Ext`: the suffix beginning at the final dot in the final
element of the path, empty if there is no dot. -/
def filepath.Ext (path : String) : String :=
  ⟨filepath.Ext.scan path.data.reverse []⟩

/-- Go `filepath.ToSlash`: separators become slashes (the identity where the
separator is the slash). -/
def filepath.ToSlash (path : String) : String :=
  if filepath.Separator = '/' then path
  else ⟨path.data.map fun c => if c = filepath.Separator then '/' else c⟩

/-- Go `strings.TrimPrefix`. -/
def strings.TrimPrefix (s pre : String) : String :=
  if pre.data.isPrefixOf s.data then ⟨s.data.drop pre.data.length⟩ else s

/-- Go `strings.TrimSuffix`. -/
def strings.TrimSuffix (s suf : String) : String :=
  if suf.data.isSuffixOf s.data then ⟨s.data.take (s.data.length - suf.data.length)⟩ else s

/-- Go `s[n:]` on a string: the offset counts bytes of the UTF-8 encoding, and
an offset beyond the length panics. (An offset inside a multi-byte character
has no counterpart among the strings of this embedding; the paths considered
are cut at character boundaries.) -/
def sliceFrom (s : String) (n : Nat) : Except Fault String :=
  if n > s.utf8ByteSize then .error .sliceBounds
  else .ok (s.extract ⟨n⟩ s.endPos)

/-- Lines 43 and 53-56 of `Load`: the name under which the file visited at
`path` is registered when `Load` was called with `pathDir`. -/
def Load.name (pathDir path : String) : Except Fault String :=
  let extension := filepath.Ext path
  match sliceFrom path pathDir.utf8ByteSize with
  | .error e => .error e
  | .ok name =>
    let name1 := filepath.ToSlash name
    let name2 := strings.TrimPrefix name1 "/"
    .ok (strings.TrimSuffix name2 extension)

/-- The path split at its slashes. -/
def filepath.elements : List Char → List (List Char)
  | [] => [[]]
  | c :: cs =>
    match filepath.elements cs with
    | [] => [[c]]
    | e :: es => if c = '/' then [] :: e :: es else (c :: e) :: es

/-- One element processed by Go `filepath.Clean`; the elements kept so far are
held last first. -/
def filepath.Clean.step (rooted : Bool) (kept : List String) (e : String) : List String :=
  if e = "" ∨ e = "." then kept
  else if e = ".." then
    match kept with
    | top :: below => if top = ".." then ".." :: kept else below
    | [] => if rooted then [] else [".."]
  else e :: kept

/-- Go `filepath.Clean` (Unix): multiple separators collapse, `.` elements go,
an inner `..` goes with the element before it, `..` right after the root goes;
the empty result is `.`. -/
def filepath.Clean (path : String) : String :=
  let rooted := path.data.head? == some '/'
  let kept := ((filepath.elements path.data).map String.mk).foldl (filepath.Clean.step rooted) []
  let body := "/".intercalate kept.reverse
  if rooted then "/" ++ body
  else if body = "" then "." else body

/-- Go `filepath.Join` of two elements: empty elements are ignored and the
result is cleaned. -/
def filepath.Join (a b : String) : String :=
  if a ≠ "" then filepath.Clean (a ++ "/" ++ b)
  else if b ≠ "" then filepath.Clean b
  else ""

/-- The path `filepath.Walk` hands to its callback for the entry reached from
`root` through the directory entries `names`: the root as given, and for each
level `filepath.Join` of the parent path and the entry name. -/
def Walk.path (root : String) (names : List String) : String :=
  names.foldl filepath.Join root

/-! ## `Load`: the walk over the directory tree

`filepath.Walk`, `ioutil.ReadFile` and `json.Unmarshal` belong to the Go
standard library. The directory tree is given as a `Node`, which records for
every entry what `os.Lstat`, the directory listing and `ioutil.ReadFile`
followed by `json.Unmarshal` yield for it.
-/

/-- An error value of the `os` package, named by its message. -/
abbrev OsError := String

/-- What `json.Unmarshal(file, &l)` does with the bytes of a file when `l` is a
nil `map[string]interface{}`: a JSON object fills `l` with a table and returns
no error; JSON `null` returns no error and leaves `l` nil; a syntax error or a
value that is no object returns an error and leaves `l` nil; a JSON object
holding a number outside the float64 range is decoded as far as it goes (nil
for such a number) and an error is returned as well. -/
inductive Decoded where
  | object (t : language)
  | null
  | invalid (msg : String)
  | rangeError (msg : String) (t : language)

/-- The variable `l` after `json.Unmarshal`. -/
def Decoded.table : Decoded → Option language
  | .object t => some t
  | .null => none
  | .invalid _ => none
  | .rangeError _ t => some t

mutual
/-- One entry of the file system as `filepath.Walk` meets it. -/
inductive Node where
  /-- `os.Lstat` fails on the entry. -/
  | lstatError (err : OsError)
  /-- Not a directory; `read` is what `ioutil.ReadFile` returns for it, the
  bytes given by what `json.Unmarshal` makes of them. -/
  | file (read : Except OsError Decoded)
  /-- A directory whose listing fails. -/
  | unreadableDir (err : OsError)
  /-- A directory and its entries in the order of the listing (by name). -/
  | dir (entries : Entries)
/-- The entries of a directory. -/
inductive Entries where
  | nil
  | cons (name : String) (node : Node) (rest : Entries)
end

/-- The arguments of one call of the walk function: `failed` when `err` is not
nil, `directory` when `info.IsDir()`, `file` otherwise, with what
`ioutil.ReadFile(path)` returns. -/
inductive Call where
  | failed (path : String) (err : OsError)
  | directory (path : String)
  | file (path : String) (read : Except OsError Decoded)

mutual
/-- The calls `filepath.Walk` makes of a walk function that keeps returning
nil, in order: the entry itself, then for a directory each entry of its
listing under the path `filepath.Join(path, name)`. -/
def Walk.calls (path : String) : Node → List Call
  | .lstatError err => [Call.failed path err]
  | .file read => [Call.file path read]
  | .unreadableDir err => [Call.failed path err]
  | .dir entries => Call.directory path :: Walk.callsIn path entries
/-- The calls for the entries of the directory at `path`. -/
def Walk.callsIn (path : String) : Entries → List Call
  | .nil => []
  | .cons name node rest =>
    Walk.calls (filepath.Join path name) node ++ Walk.callsIn path rest
end

/-- What a call of the walk function or of `Load` leaves behind: `.ok none`
for the return value nil, `.ok (some err)` for a returned error, `.error` for
a panic; and the package state. -/
abbrev LoadOutcome := Except Fault (Option OsError) × World

/-- Go `data[name] = l` on the catalog: the binding of `name` is replaced, or
added when there is none. -/
def Catalog.set : Catalog → String → Option language → Catalog
  | [], name, l => [(name, l)]
  | (k, v) :: rest, name, l =>
    if k == name then (name, l) :: rest else (k, v) :: Catalog.set rest name l

/-- The line `log.Println` writes for a JSON error (without the time stamp). -/
def jsonErrorLine (msg : String) : String :=
  "error reading json data " ++ msg

/-- Lines 34-66 of `Load`: the walk function, called on the package state. -/
def Load.walkFn (pathDir : String) (w : World) : Call → LoadOutcome
  | .failed _ err => (.ok (some err), w)
  | .directory _ => (.ok none, w)
  | .file path read =>
    let extension := filepath.Ext path
    if extension ≠ ".json" then (.ok none, w)
    else
      match read with
      | .error err => (.ok (some err), w)
      | .ok d =>
        match Load.name pathDir path with
        | .error e => (.error e, w)
        | .ok name =>
          let w1 : World :=
            match d with
            | .invalid msg => { w with log := w.log ++ [jsonErrorLine msg] }
            | .rangeError msg _ => { w with log := w.log ++ [jsonErrorLine msg] }
            | _ => w
          (.ok none, { w1 with data := Catalog.set w1.data name d.table })

/-- Go `filepath.Walk` driving a walk function over the calls it would make:
the first call that does not return nil ends the walk with that outcome. -/
def Walk.run (fn : World → Call → LoadOutcome) : List Call → World → LoadOutcome
  | [], w => (.ok none, w)
  | c :: cs, w =>
    match fn w c with
    | (.ok none, w1) => Walk.run fn cs w1
    | (r, w1) => (r, w1)

/-- Go `Load`: `data` is replaced by an empty map, then the tree found at
`pathDir` is walked. -/
def Load (w : World) (pathDir : String) (tree : Node) : LoadOutcome :=
  Walk.run (Load.walkFn pathDir) (Walk.calls pathDir tree) { w with data := [] }

/-- Go `Debug`. -/
def Debug (w : World) (value : Bool) : World :=
  { w with debug := value }

/-! ## Notions used in the statements, and example catalogs -/

/-- The key has no entry under the language: the language has no table, or its
table has no binding for the key. -/
def Absent (data : Catalog) (lang key : String) : Prop :=
  ∀ t, dataIndex data lang = some t → t.lookup key = none

/-- The bucket of `Plural`: the key its three comparisons select. -/
def bucket (value : Int) (zero one many : String) : String :=
  if value ≤ 0 then zero else if value = 1 then one else many

/-- A world around a catalog: debugging off, nothing logged. -/
def worldOf (data : Catalog) : World :=
  { data := data, debug := false, log := [] }

/-- Namespace `en` with the entry `greet` = `Hi %s`. -/
def greetCatalog : Catalog :=
  [("en", some [("greet", Value.string "Hi %s")])]

/-- Namespaces `en` and `fr`, each with an entry for `hello`. -/
def helloCatalog : Catalog :=
  [("en", some [("hello", Value.string "Hi")]), ("fr", some [("hello", Value.string "Bonjour")])]

/-- Namespace `en` whose table stores the JSON number 3 (bit pattern of the
float64 3.0) under `count` and a string under `hello`. -/
def mixedCatalog : Catalog :=
  [("en", some [("count", Value.float64 0x4008000000000000), ("hello", Value.string "Hi")])]

/-- The file-system error a call of the walk function meets: the error the walk
reports for the entry, or the error of `ioutil.ReadFile` on a `.json` file. -/
def Call.fsError : Call → Option OsError
  | .failed _ err => some err
  | .file path (.error err) => if filepath.Ext path = ".json" then some err else none
  | _ => none

/-- The call is for a `.json` file that was read and whose name derivation
panics: the file has no namespace. -/
def Load.unnamed (pathDir : String) : Call → Bool
  | .file path (.ok _) =>
    filepath.Ext path == ".json" &&
      (match Load.name pathDir path with
        | .ok _ => false
        | .error _ => true)
  | _ => false

/-- The namespace a call registers and what the file decodes to: defined for a
non-directory with the extension `.json` that was read and has a name. -/
def Load.binding (pathDir : String) : Call → Option (String × Decoded)
  | .file path (.ok d) =>
    if filepath.Ext path = ".json" then
      match Load.name pathDir path with
      | .ok name => some (name, d)
      | .error _ => none
    else none
  | _ => none

/-- The namespaces and decoded files of a sequence of calls, in order. -/
def Load.bindings (pathDir : String) (calls : List Call) : List (String × Decoded) :=
  calls.filterMap (Load.binding pathDir)

/-- The translators allocated so far; a pointer `*I18N` is a position in it. -/
abbrev Heap := List I18N

/-- Go `New` as an allocation: `&I18N` with the given language is a fresh
pointer. -/
def Heap.New (h : Heap) (lang : String) : Nat × Heap :=
  (h.length, h ++ [I18n.New lang])

/-- Go `(*I18N).SetLang` through the pointer `p`. -/
def Heap.SetLang (h : Heap) (p : Nat) (lang : String) : Heap :=
  match h[p]? with
  | some i => h.set p (i.SetLang lang)
  | none => h

/-- Go `(*I18N).GetLang` through the pointer `p`. -/
def Heap.GetLang (h : Heap) (p : Nat) : Option String :=
  (h[p]?).map I18N.GetLang

/-- A tree with the files `admin/es.json`, `bad.json` (not valid JSON),
`en.json` and `notes.txt`. -/
def sampleTree : Node :=
  .dir
    (.cons "admin" (.dir (.cons "es.json"
      (.file (.ok (.object [("hello", Value.string "Hola")]))) .nil))
    (.cons "bad.json" (.file (.ok (.invalid "unexpected end of JSON input")))
    (.cons "en.json" (.file (.ok (.object [("hello", Value.string "Hi")])))
    (.cons "notes.txt" (.file (.ok (.invalid "invalid character"))) .nil))))

/-- A tree in which `en.json` is read, `fr.json` cannot be read and `it.json`
comes after it. -/
def brokenTree : Node :=
  .dir
    (.cons "en.json" (.file (.ok (.object [("hello", Value.string "Hi")])))
    (.cons "fr.json" (.file (.error "permission denied"))
    (.cons "it.json" (.file (.ok (.object [("hello", Value.string "Ciao")]))) .nil)))

/-- A tree with the valid files `xa.json` and `ya.json` and the file `za.json`
that is not valid JSON. -/
def collidingTree : Node :=
  .dir
    (.cons "xa.json" (.file (.ok (.object [("hello", Value.string "Hi")])))
    (.cons "ya.json" (.file (.ok (.object [("hello", Value.string "Hola")])))
    (.cons "za.json" (.file (.ok (.invalid "unexpected end of JSON input"))) .nil)))

/-! ## Lemmas on the language check of `Print` -/

theorem override_nil (data : Catalog) (i : I18N) :
    Print.override data i [] = .ok (i.language, []) := by
  simp [Print.override]

theorem override_snoc_nil (data : Catalog) (i : I18N) (args : List Value) :
    Print.override data i (args ++ [Value.nil]) = .error Fault.zeroValueType := by
  simp [Print.override, typeString]

theorem override_snoc_registered (data : Catalog) (i : I18N) (args : List Value)
    (L : String) (h : (dataIndex data L).isSome = true) :
    Print.override data i (args ++ [Value.string L]) = .ok (L, args) := by
  simp [Print.override, typeString, assertString, h]

theorem override_snoc_unregistered (data : Catalog) (i : I18N) (args : List Value)
    (L : String) (h : dataIndex data L = none) :
    Print.override data i (args ++ [Value.string L])
      = .ok (i.language, args ++ [Value.string L]) := by
  simp [Print.override, typeString, assertString, h]

theorem override_snoc_other (data : Catalog) (i : I18N) (args : List Value) (v : Value)
    (hnil : v.isNil = false) (hstr : v.isString = false) :
    Print.override data i (args ++ [v]) = .ok (i.language, args ++ [v]) := by
  cases v <;> simp_all [Print.override, typeString, Value.isNil, Value.isString]

/-- A list whose last element is not nil passes the language check. -/
theorem override_ok (data : Catalog) (i : I18N) (args : List Value)
    (h : args.getLast? ≠ some Value.nil) :
    ∃ lang rest, Print.override data i args = .ok (lang, rest) := by
  rcases List.eq_nil_or_concat args with rfl | ⟨init, last, rfl⟩
  · exact ⟨_, _, override_nil data i⟩
  · rw [List.concat_eq_append] at h ⊢
    cases last with
    | nil => simp at h
    | string L =>
      cases hL : dataIndex data L with
      | none => exact ⟨_, _, override_snoc_unregistered data i init L hL⟩
      | some t => exact ⟨_, _, override_snoc_registered data i init L (by simp [hL])⟩
    | int n => exact ⟨_, _, override_snoc_other data i init _ rfl rfl⟩
    | bool b => exact ⟨_, _, override_snoc_other data i init _ rfl rfl⟩
    | float64 x => exact ⟨_, _, override_snoc_other data i init _ rfl rfl⟩
    | array x => exact ⟨_, _, override_snoc_other data i init _ rfl rfl⟩
    | object x => exact ⟨_, _, override_snoc_other data i init _ rfl rfl⟩

/-! ## Lemmas on the lookup of `Print` -/

theorem translate_miss (Sprintf : String → List Value → String) (w : World) (i : I18N)
    (lang str : String) (args : List Value) (h : isMiss w.data lang str = true) :
    (Print.translate Sprintf w i lang str args).ret
      = .ok (if decide (args.length > 0) && strings.Contains str "%"
          then Sprintf str args else str) := by
  unfold Print.translate
  rw [if_pos h]
  by_cases hc : (decide (args.length > 0) && strings.Contains str "%") = true
  · simp [hc]
  · simp [hc]

theorem translate_hit (Sprintf : String → List Value → String) (w : World) (i : I18N)
    (lang str : String) (args : List Value) (t : language) (v : String)
    (ht : dataIndex w.data lang = some t) (hv : t.lookup str = some (Value.string v)) :
    (Print.translate Sprintf w i lang str args).ret
      = .ok (if decide (args.length > 0) && strings.Contains str "%"
          then Sprintf v args else v) := by
  unfold Print.translate
  by_cases hc : (decide (args.length > 0) && strings.Contains str "%") = true
  · simp [isMiss, ht, langIndex, hv, Value.isNil, assertString, hc]
  · simp [isMiss, ht, langIndex, hv, Value.isNil, assertString, hc]

theorem translate_mismatch (Sprintf : String → List Value → String) (w : World) (i : I18N)
    (lang str : String) (args : List Value) (t : language) (v : Value)
    (ht : dataIndex w.data lang = some t) (hv : t.lookup str = some v)
    (hnil : v.isNil = false) (hstr : v.isString = false) :
    (Print.translate Sprintf w i lang str args).ret = .error Fault.interfaceConversion := by
  unfold Print.translate
  cases v <;> simp_all [isMiss, langIndex, Value.isNil, Value.isString, assertString]

/-! ## Lemmas on `Print` as a whole -/

theorem Print_of_override (Sprintf : String → List Value → String) (w : World) (i : I18N)
    (str : String) (args : List Value) (lang : String) (rest : List Value)
    (h : Print.override w.data i args = .ok (lang, rest)) :
    Print Sprintf w i str args = Print.translate Sprintf w i lang str rest := by
  simp [Print, h]

theorem Print_of_fault (Sprintf : String → List Value → String) (w : World) (i : I18N)
    (str : String) (args : List Value) (e : Fault)
    (h : Print.override w.data i args = .error e) :
    (Print Sprintf w i str args).ret = .error e := by
  simp [Print, h]

theorem isMiss_of_absent (data : Catalog) (lang key : String) (h : Absent data lang key) :
    isMiss data lang key = true := by
  unfold isMiss
  cases ht : dataIndex data lang with
  | none => rfl
  | some t => simp [langIndex, h t ht, Value.isNil]

theorem lookup_mem {β : Type} (l : List (String × β)) (k : String) (v : β)
    (h : l.lookup k = some v) : (k, v) ∈ l := by
  induction l with
  | nil => simp at h
  | cons p ps ih =>
    obtain ⟨a, b⟩ := p
    by_cases hk : k = a
    · subst hk
      simp [List.lookup] at h
      simp [h]
    · have hb : (k == a) = false := by simpa using hk
      simp only [List.lookup, hb] at h
      exact List.mem_cons_of_mem _ (ih h)

/-- In a catalog whose stored values are all strings, whatever a table binds
to a key is a string. -/
theorem allStrings_lookup (data : Catalog) (h : data.allStrings = true) (lang key : String)
    (t : language) (v : Value) (ht : dataIndex data lang = some t)
    (hv : t.lookup key = some v) : ∃ s, v = Value.string s := by
  have h1 : data.lookup lang = some (some t) := by
    unfold dataIndex at ht
    cases hl : data.lookup lang with
    | none => simp [hl] at ht
    | some o => simpa [hl] using ht
  have h2 := lookup_mem data lang (some t) h1
  have h3 := lookup_mem t key v hv
  unfold Catalog.allStrings at h
  rw [List.all_eq_true] at h
  have h4 := h _ h2
  simp only [List.all_eq_true] at h4
  have h5 := h4 _ h3
  cases v <;> simp_all [Value.isString]

/-- The lookup `Print.translate` returns a string on a catalog whose stored values are all
strings. -/
theorem translate_returns (Sprintf : String → List Value → String) (w : World) (i : I18N)
    (lang str : String) (args : List Value) (h : w.data.allStrings = true) :
    ∃ r, (Print.translate Sprintf w i lang str args).ret = .ok r := by
  cases hm : isMiss w.data lang str with
  | true => exact ⟨_, translate_miss Sprintf w i lang str args hm⟩
  | false =>
    unfold isMiss at hm
    cases ht : dataIndex w.data lang with
    | none => simp [ht] at hm
    | some t =>
      cases hv : t.lookup str with
      | none => simp [ht, langIndex, hv, Value.isNil] at hm
      | some v =>
        obtain ⟨s, rfl⟩ := allStrings_lookup w.data h lang str t v ht hv
        exact ⟨_, translate_hit Sprintf w i lang str args t s ht hv⟩

/-- The call `Print` returns a string on a catalog whose stored values are all strings
when the last argument, if there is one, is not nil. -/
theorem Print_returns (Sprintf : String → List Value → String) (w : World) (i : I18N)
    (str : String) (args : List Value) (h : w.data.allStrings = true)
    (hlast : args.getLast? ≠ some Value.nil) :
    ∃ r, (Print Sprintf w i str args).ret = .ok r := by
  obtain ⟨lang, rest, ho⟩ := override_ok w.data i args hlast
  rw [Print_of_override Sprintf w i str args lang rest ho]
  exact translate_returns Sprintf w i lang str rest h

theorem contains_percent_greet : strings.Contains "greet" "%" = false := by decide

/-- The test `strings.Contains(s, "%")` holds exactly when the character `%`
occurs in `s`. -/
theorem contains_percent_iff (s : String) :
    strings.Contains s "%" = true ↔ '%' ∈ s.data := by
  have hd : ("%" : String).data = ['%'] := rfl
  simp only [strings.Contains, decide_eq_true_eq, hd]
  constructor
  · rintro ⟨a, b, h⟩
    rw [← h]
    simp
  · intro h
    obtain ⟨a, b, hab⟩ := List.append_of_mem h
    exact ⟨a, b, by simp [hab]⟩

/-! ## C1: formatting on a hit -/

/-- C1: the code departs from the claim at `Print("greet", "Ann")` with the entry
`greet` = `Hi %s` under the current language `en`. The language check keeps
`en` and the argument list `["Ann"]`, the lookup is a hit with the value
`Hi %s`, the value contains `%` and formatted against `Ann` it is `Hi Ann`,
which is what the claim has `Print` return; the test before the formatting
looks for `%` in the key `greet`, finds none, and `Print` returns `Hi %s`. -/
theorem C1_value_with_percent_not_formatted :
    Print.override greetCatalog (New "en") [Value.string "Ann"]
        = .ok ("en", [Value.string "Ann"])
      ∧ assertString (langIndex (dataIndex greetCatalog "en") "greet") = .ok "Hi %s"
      ∧ strings.Contains "Hi %s" "%" = true
      ∧ strings.Contains "greet" "%" = false
      ∧ fmt.Sprintf "Hi %s" [Value.string "Ann"] = "Hi Ann"
      ∧ (Print fmt.Sprintf (worldOf greetCatalog) (New "en") "greet" [Value.string "Ann"]).ret
          = .ok "Hi %s"
      ∧ (Print fmt.Sprintf (worldOf greetCatalog) (New "en") "greet" [Value.string "Ann"]).ret
          ≠ .ok (fmt.Sprintf "Hi %s" [Value.string "Ann"]) := by
  refine ⟨rfl, rfl, by decide, by decide, by decide, by decide, by decide⟩

/-! ## C2: the inline language override -/

/-- With a registered namespace as last argument, `Print` looks the key up in
that namespace and formats against the arguments before it. -/
theorem Print_override_taken (Sprintf : String → List Value → String) (w : World) (i : I18N)
    (key : String) (args : List Value) (L : String) (t : language)
    (hL : dataIndex w.data L = some t) :
    Print Sprintf w i key (args ++ [Value.string L])
      = Print.translate Sprintf w i L key args :=
  Print_of_override Sprintf w i key _ L args
    (override_snoc_registered w.data i args L (by simp [hL]))

/-- With a last argument that is a string but no registered namespace, or a
value of another type that is not nil, `Print` uses the current language and
keeps every argument. -/
theorem Print_override_skipped (Sprintf : String → List Value → String) (w : World) (i : I18N)
    (key : String) (args : List Value) (last : Value)
    (h : (∃ s, last = Value.string s ∧ dataIndex w.data s = none)
      ∨ (last.isNil = false ∧ last.isString = false)) :
    Print Sprintf w i key (args ++ [last])
      = Print.translate Sprintf w i i.language key (args ++ [last]) := by
  rcases h with ⟨s, rfl, hs⟩ | ⟨hnil, hstr⟩
  · exact Print_of_override Sprintf w i key _ _ _ (override_snoc_unregistered w.data i args s hs)
  · exact Print_of_override Sprintf w i key _ _ _
      (override_snoc_other w.data i args last hnil hstr)

/-- C2: the code departs from the claim at a nil last argument. With the current
language `en` holding `hello` = `Hi`, the last argument nil is not a string, so
the claim has `Print("hello", nil)` use the current language and keep the
argument, which gives `Hi`; the code panics in `reflect.Value.Type`. The
override to `fr` of the claim's example does work and gives `Bonjour`. -/
theorem C2_nil_last_argument_faults :
    (Print fmt.Sprintf (worldOf helloCatalog) (New "en") "hello" [Value.nil]).ret
        = .error Fault.zeroValueType
      ∧ (Print.translate fmt.Sprintf (worldOf helloCatalog) (New "en") "en" "hello"
          [Value.nil]).ret = .ok "Hi"
      ∧ (Print fmt.Sprintf (worldOf helloCatalog) (New "en") "hello" [Value.string "fr"]).ret
        = .ok "Bonjour" := by
  refine ⟨by decide, by decide, by decide⟩

/-! ## C3: a hit without arguments -/

/-- C3: for every catalog, every namespace `L` with a table and every key `k`
that the table maps to a string `v`, `New(L).Print(k)` without arguments
returns exactly `v`. -/
theorem C3_roundtrip_hit (Sprintf : String → List Value → String) (w : World) (L : String)
    (t : language) (k v : String) (ht : dataIndex w.data L = some t)
    (hv : t.lookup k = some (Value.string v)) :
    (Print Sprintf w (New L) k []).ret = .ok v := by
  have ho : Print.override w.data (New L) [] = .ok (L, []) := override_nil w.data (New L)
  rw [Print_of_override Sprintf w (New L) k [] L [] ho,
    translate_hit Sprintf w (New L) L k [] t v ht hv]
  simp

/-- Witness of C3: namespace `en` with `hello` = `Hi` gives `Print("hello")` = `Hi`. -/
theorem C3_witness :
    (Print fmt.Sprintf (worldOf helloCatalog) (New "en") "hello" []).ret = .ok "Hi" :=
  C3_roundtrip_hit fmt.Sprintf (worldOf helloCatalog) "en" [("hello", Value.string "Hi")]
    "hello" "Hi" rfl rfl

/-! ## C4 and C5: the fallback on a miss -/

theorem length_pos_of_ne_nil {α : Type} (l : List α) (h : l ≠ []) :
    decide (l.length > 0) = true := by
  cases l with
  | nil => exact absurd rfl h
  | cons a t => simp

/-- C4: when the resolved language has no table or its table has no entry for
the key, and no formatting argument remains or the key contains no `%`, `Print`
returns the key unchanged. In particular `Print("missing.key")` without
arguments returns `missing.key` whatever the current language, registered or
not, as long as the key is absent. -/
theorem C4_fallback_to_key :
    (∀ (Sprintf : String → List Value → String) (w : World) (i : I18N) (key : String)
        (args : List Value) (lang : String) (rest : List Value),
        Print.override w.data i args = .ok (lang, rest) →
        Absent w.data lang key →
        (rest = [] ∨ strings.Contains key "%" = false) →
        (Print Sprintf w i key args).ret = .ok key)
    ∧ (∀ (Sprintf : String → List Value → String) (w : World) (i : I18N),
        Absent w.data i.language "missing.key" →
        (Print Sprintf w i "missing.key" []).ret = .ok "missing.key") := by
  have general : ∀ (Sprintf : String → List Value → String) (w : World) (i : I18N)
      (key : String) (args : List Value) (lang : String) (rest : List Value),
      Print.override w.data i args = .ok (lang, rest) →
      Absent w.data lang key →
      (rest = [] ∨ strings.Contains key "%" = false) →
      (Print Sprintf w i key args).ret = .ok key := by
    intro Sprintf w i key args lang rest ho habs hfmt
    rw [Print_of_override Sprintf w i key args lang rest ho,
      translate_miss Sprintf w i lang key rest (isMiss_of_absent w.data lang key habs)]
    rcases hfmt with rfl | hc
    · simp
    · simp [hc]
  exact ⟨general, fun Sprintf w i habs =>
    general Sprintf w i "missing.key" [] i.language [] (override_nil w.data i) habs (Or.inl rfl)⟩

/-- Witness of C4: a key without `%` missing from the registered language `en`,
looked up with a formatting argument, and `missing.key` under the unregistered
language `xx`. -/
theorem C4_witness :
    (Print fmt.Sprintf (worldOf helloCatalog) (New "en") "bye" [Value.int 3]).ret = .ok "bye"
      ∧ (Print fmt.Sprintf (worldOf helloCatalog) (New "xx") "missing.key" []).ret
        = .ok "missing.key" :=
  ⟨C4_fallback_to_key.1 fmt.Sprintf (worldOf helloCatalog) (New "en") "bye" [Value.int 3]
      "en" [Value.int 3] rfl
      (by
        intro t ht
        simp [dataIndex, worldOf, helloCatalog, List.lookup] at ht
        subst ht
        rfl)
      (Or.inr (by decide)),
    C4_fallback_to_key.2 fmt.Sprintf (worldOf helloCatalog) (New "xx")
      (by
        intro t ht
        simp [dataIndex, worldOf, helloCatalog, List.lookup, New] at ht)⟩

/-- C5: when the lookup is a miss, the arguments left after the language check
are non-empty and the key contains `%`, `Print` returns the key formatted
against those arguments. In particular, with `Hello %s` absent under the
current language and `World` not a registered namespace,
`Print("Hello %s", "World")` returns `Hello World`. -/
theorem C5_formatting_fallback :
    (∀ (Sprintf : String → List Value → String) (w : World) (i : I18N) (key : String)
        (args : List Value) (lang : String) (rest : List Value),
        Print.override w.data i args = .ok (lang, rest) →
        Absent w.data lang key →
        rest ≠ [] →
        strings.Contains key "%" = true →
        (Print Sprintf w i key args).ret = .ok (Sprintf key rest))
    ∧ (∀ (w : World) (i : I18N),
        Absent w.data i.language "Hello %s" →
        dataIndex w.data "World" = none →
        (Print fmt.Sprintf w i "Hello %s" [Value.string "World"]).ret = .ok "Hello World") := by
  have general : ∀ (Sprintf : String → List Value → String) (w : World) (i : I18N)
      (key : String) (args : List Value) (lang : String) (rest : List Value),
      Print.override w.data i args = .ok (lang, rest) →
      Absent w.data lang key →
      rest ≠ [] →
      strings.Contains key "%" = true →
      (Print Sprintf w i key args).ret = .ok (Sprintf key rest) := by
    intro Sprintf w i key args lang rest ho habs hne hc
    rw [Print_of_override Sprintf w i key args lang rest ho,
      translate_miss Sprintf w i lang key rest (isMiss_of_absent w.data lang key habs)]
    simp [length_pos_of_ne_nil rest hne, hc]
  refine ⟨general, fun w i habs hW => ?_⟩
  have ho : Print.override w.data i [Value.string "World"]
      = .ok (i.language, [Value.string "World"]) :=
    override_snoc_unregistered w.data i [] "World" hW
  rw [general fmt.Sprintf w i "Hello %s" _ _ _ ho habs (by simp) (by decide)]
  decide

/-- Witness of C5: the catalog with `en` and `fr`, current language `en`. -/
theorem C5_witness :
    (Print fmt.Sprintf (worldOf helloCatalog) (New "en") "%d left" [Value.int 2]).ret
        = .ok (fmt.Sprintf "%d left" [Value.int 2])
      ∧ (Print fmt.Sprintf (worldOf helloCatalog) (New "en") "Hello %s"
          [Value.string "World"]).ret = .ok "Hello World" :=
  ⟨C5_formatting_fallback.1 fmt.Sprintf (worldOf helloCatalog) (New "en") "%d left"
      [Value.int 2] "en" [Value.int 2] rfl
      (by
        intro t ht
        simp [dataIndex, worldOf, helloCatalog, List.lookup] at ht
        subst ht
        rfl)
      (by simp) (by decide),
    C5_formatting_fallback.2 (worldOf helloCatalog) (New "en")
      (by
        intro t ht
        simp [dataIndex, worldOf, helloCatalog, List.lookup, New] at ht
        subst ht
        rfl)
      rfl⟩

/-! ## C6 and C7: `Plural` -/

/-- When the first value is a string, `Plural` is `Print` of the selected key
on the count followed by the values, the first value dropped if empty. -/
theorem Plural_eq_Print (Sprintf : String → List Value → String) (w : World) (i : I18N)
    (count : Int) (zero one many s : String) (tail : List Value) :
    Plural Sprintf w i count zero one many (Value.string s :: tail)
      = Print Sprintf w i (bucket count zero one many)
          (Value.int count :: (if s = "" then tail else Value.string s :: tail)) := by
  unfold Plural bucket
  simp only [assertString, beq_iff_eq]
  by_cases h0 : count ≤ 0
  · simp [h0]
  · by_cases h1 : count = 1
    · simp [h1]
    · have h2 : count > 1 := by omega
      simp [h0, h1, h2]

/-- A miss with the count as only argument: the key comes back, formatted
against the count when it contains `%`. -/
theorem Print_count_miss (Sprintf : String → List Value → String) (w : World) (i : I18N)
    (key : String) (count : Int) (h : Absent w.data i.language key) :
    (Print Sprintf w i key [Value.int count]).ret
      = .ok (if strings.Contains key "%" then Sprintf key [Value.int count] else key) := by
  have ho : Print.override w.data i [Value.int count] = .ok (i.language, [Value.int count]) :=
    override_snoc_other w.data i [] (Value.int count) rfl rfl
  rw [Print_of_override Sprintf w i key _ _ _ ho,
    translate_miss Sprintf w i _ key _ (isMiss_of_absent w.data _ key h)]
  simp

/-- C6: for every count, keys and values whose first element is a string,
`Plural` equals `Print` of the selected key on the count followed by the values
(first value dropped if it is the empty string); the key is `zeroKey` when
`count <= 0`, `oneKey` when `count == 1`, `manyKey` when `count > 1`, and every
integer satisfies exactly one of the three comparisons, so the trailing return
of the empty string is not reached. With the three keys absent and values
`[""]`, `Plural(0)` is `no items`, `Plural(1)` is `1 item` and `Plural(5)` is
`5 items`. -/
theorem C6_plural_buckets :
    (∀ (Sprintf : String → List Value → String) (w : World) (i : I18N) (count : Int)
        (zero one many s : String) (tail : List Value),
        Plural Sprintf w i count zero one many (Value.string s :: tail)
          = Print Sprintf w i (bucket count zero one many)
              (Value.int count :: (if s = "" then tail else Value.string s :: tail)))
    ∧ (∀ (count : Int) (zero one many : String),
        (count ≤ 0 → bucket count zero one many = zero)
          ∧ (count = 1 → bucket count zero one many = one)
          ∧ (count > 1 → bucket count zero one many = many))
    ∧ (∀ count : Int,
        (count ≤ 0 ∧ ¬ count = 1 ∧ ¬ count > 1)
          ∨ (¬ count ≤ 0 ∧ count = 1 ∧ ¬ count > 1)
          ∨ (¬ count ≤ 0 ∧ ¬ count = 1 ∧ count > 1))
    ∧ (∀ (w : World) (i : I18N),
        Absent w.data i.language "no items" →
        Absent w.data i.language "1 item" →
        Absent w.data i.language "%d items" →
        (Plural fmt.Sprintf w i 0 "no items" "1 item" "%d items" [Value.string ""]).ret
            = .ok "no items"
          ∧ (Plural fmt.Sprintf w i 1 "no items" "1 item" "%d items" [Value.string ""]).ret
            = .ok "1 item"
          ∧ (Plural fmt.Sprintf w i 5 "no items" "1 item" "%d items" [Value.string ""]).ret
            = .ok "5 items") := by
  refine ⟨Plural_eq_Print, ?_, ?_, ?_⟩
  · intro count zero one many
    unfold bucket
    refine ⟨fun h => by simp [h], fun h => by simp [h], fun h => ?_⟩
    have h0 : ¬ count ≤ 0 := by omega
    have h1 : ¬ count = 1 := by omega
    simp [h0, h1]
  · intro count
    omega
  · intro w i hz ho hm
    refine ⟨?_, ?_, ?_⟩
    · rw [Plural_eq_Print]
      have hb : bucket 0 "no items" "1 item" "%d items" = "no items" := by decide
      rw [hb, if_pos rfl, Print_count_miss fmt.Sprintf w i "no items" 0 hz]
      decide
    · rw [Plural_eq_Print]
      have hb : bucket 1 "no items" "1 item" "%d items" = "1 item" := by decide
      rw [hb, if_pos rfl, Print_count_miss fmt.Sprintf w i "1 item" 1 ho]
      decide
    · rw [Plural_eq_Print]
      have hb : bucket 5 "no items" "1 item" "%d items" = "%d items" := by decide
      rw [hb, if_pos rfl, Print_count_miss fmt.Sprintf w i "%d items" 5 hm]
      decide

/-- Witness of C6: the three keys are absent from the catalog with `en` and
`fr`; the three counts of the claim under the current language `en`. -/
theorem C6_witness :
    (Plural fmt.Sprintf (worldOf helloCatalog) (New "en") 0 "no items" "1 item" "%d items"
        [Value.string ""]).ret = .ok "no items"
      ∧ (Plural fmt.Sprintf (worldOf helloCatalog) (New "en") 1 "no items" "1 item" "%d items"
        [Value.string ""]).ret = .ok "1 item"
      ∧ (Plural fmt.Sprintf (worldOf helloCatalog) (New "en") 5 "no items" "1 item" "%d items"
        [Value.string ""]).ret = .ok "5 items" :=
  C6_plural_buckets.2.2.2 (worldOf helloCatalog) (New "en")
    (by
      intro t ht
      simp [dataIndex, worldOf, helloCatalog, List.lookup, New] at ht
      subst ht
      rfl)
    (by
      intro t ht
      simp [dataIndex, worldOf, helloCatalog, List.lookup, New] at ht
      subst ht
      rfl)
    (by
      intro t ht
      simp [dataIndex, worldOf, helloCatalog, List.lookup, New] at ht
      subst ht
      rfl)

/-- C7, as stated, fails: on a catalog whose stored values are all strings,
`Plural` called with the non-empty values `[42]` does not return a string; the
type assertion on the first value panics. -/
theorem C7_counterexample :
    helloCatalog.allStrings = true
      ∧ [Value.int 42] ≠ []
      ∧ (Plural fmt.Sprintf (worldOf helloCatalog) (New "en") 5 "no items" "1 item" "%d items"
          [Value.int 42]).ret = .error Fault.interfaceConversion := by
  refine ⟨by decide, by simp, by decide⟩

/-- C7 (amended): given a catalog whose stored values are all strings, `Plural`
panics when `values` is empty and when its first element is not a string; for
every non-empty `values` whose first element is a string and whose last element
is not nil it returns a string, namely what `Print` returns for the selected
key on the count followed by the values, the first one dropped only when it is
the empty string. -/
theorem C7_plural_faults_and_returns (Sprintf : String → List Value → String) (w : World)
    (i : I18N) (count : Int) (zero one many : String) (values : List Value)
    (h : w.data.allStrings = true) :
    (values = [] →
        (Plural Sprintf w i count zero one many values).ret = .error Fault.indexOutOfRange)
    ∧ (∀ (first : Value) (tail : List Value), values = first :: tail →
        first.isString = false →
        (Plural Sprintf w i count zero one many values).ret = .error Fault.interfaceConversion)
    ∧ (∀ (s : String) (tail : List Value), values = Value.string s :: tail →
        values.getLast? ≠ some Value.nil →
        ∃ r, (Plural Sprintf w i count zero one many values).ret = .ok r
          ∧ (Print Sprintf w i (bucket count zero one many)
              (Value.int count :: (if s = "" then tail else values))).ret = .ok r) := by
  refine ⟨?_, ?_, ?_⟩
  · rintro rfl
    rfl
  · rintro first tail rfl hfirst
    cases first <;> simp_all [Plural, assertString, Value.isString]
  · rintro s tail rfl hlast
    rw [Plural_eq_Print]
    have hl : (Value.int count
        :: (if s = "" then tail else Value.string s :: tail)).getLast? ≠ some Value.nil := by
      by_cases hs : s = ""
      · rw [if_pos hs]
        cases tail with
        | nil => simp
        | cons a l =>
          rw [List.getLast?_cons_cons] at hlast ⊢
          exact hlast
      · rw [if_neg hs, List.getLast?_cons_cons]
        exact hlast
    obtain ⟨r, hr⟩ := Print_returns Sprintf w i (bucket count zero one many) _ h hl
    exact ⟨r, hr, hr⟩

/-- Witness of C7 (amended): the three cases on the catalog with `en` and `fr`. -/
theorem C7_witness :
    (Plural fmt.Sprintf (worldOf helloCatalog) (New "en") 5 "no items" "1 item" "%d items"
        []).ret = .error Fault.indexOutOfRange
      ∧ (Plural fmt.Sprintf (worldOf helloCatalog) (New "en") 5 "no items" "1 item" "%d items"
        [Value.bool true]).ret = .error Fault.interfaceConversion
      ∧ ∃ r, (Plural fmt.Sprintf (worldOf helloCatalog) (New "en") 5 "no items" "1 item"
          "%d items" [Value.string "", Value.int 7]).ret = .ok r
        ∧ (Print fmt.Sprintf (worldOf helloCatalog) (New "en")
            (bucket 5 "no items" "1 item" "%d items")
            (Value.int 5 :: (if "" = "" then [Value.int 7]
              else [Value.string "", Value.int 7]))).ret = .ok r :=
  ⟨(C7_plural_faults_and_returns fmt.Sprintf (worldOf helloCatalog) (New "en") 5 "no items"
      "1 item" "%d items" [] (by decide)).1 rfl,
    (C7_plural_faults_and_returns fmt.Sprintf (worldOf helloCatalog) (New "en") 5 "no items"
      "1 item" "%d items" [Value.bool true] (by decide)).2.1 (Value.bool true) [] rfl rfl,
    (C7_plural_faults_and_returns fmt.Sprintf (worldOf helloCatalog) (New "en") 5 "no items"
      "1 item" "%d items" [Value.string "", Value.int 7] (by decide)).2.2 "" [Value.int 7] rfl
      (by simp)⟩

/-! ## C8 and C9: the panics of `Print` -/

/-- C8: the code departs from the claim at a nil last argument. Whatever the
catalog (so also one whose stored values are all strings), the translator, the
key and the arguments before it, `Print` with nil as last argument panics in
`reflect.Value.Type` instead of returning a string. -/
theorem C8_nil_last_argument_panics (Sprintf : String → List Value → String) (w : World)
    (i : I18N) (key : String) (args : List Value) :
    (Print Sprintf w i key (args ++ [Value.nil])).ret = .error Fault.zeroValueType :=
  Print_of_fault Sprintf w i key _ _ (override_snoc_nil w.data i args)

/-- C9: when the table of the resolved language stores under the key a value
that is neither nil nor a string (a JSON number, boolean, object or array),
`Print` panics on the type assertion, whatever arguments remain for
formatting. -/
theorem C9_type_mismatch_faults (Sprintf : String → List Value → String) (w : World)
    (i : I18N) (key : String) (args : List Value) (lang : String) (rest : List Value)
    (t : language) (v : Value)
    (ho : Print.override w.data i args = .ok (lang, rest))
    (ht : dataIndex w.data lang = some t)
    (hv : t.lookup key = some v)
    (hnil : v.isNil = false) (hstr : v.isString = false) :
    (Print Sprintf w i key args).ret = .error Fault.interfaceConversion := by
  rw [Print_of_override Sprintf w i key args lang rest ho]
  exact translate_mismatch Sprintf w i lang key rest t v ht hv hnil hstr

/-- Witness of C9: the JSON number stored under `count`, looked up without and
with a formatting argument. -/
theorem C9_witness :
    (Print fmt.Sprintf (worldOf mixedCatalog) (New "en") "count" []).ret
        = .error Fault.interfaceConversion
      ∧ (Print fmt.Sprintf (worldOf mixedCatalog) (New "en") "count" [Value.int 1]).ret
        = .error Fault.interfaceConversion :=
  ⟨C9_type_mismatch_faults fmt.Sprintf (worldOf mixedCatalog) (New "en") "count" [] "en" []
      [("count", Value.float64 0x4008000000000000), ("hello", Value.string "Hi")]
      (Value.float64 0x4008000000000000) rfl rfl rfl rfl rfl,
    C9_type_mismatch_faults fmt.Sprintf (worldOf mixedCatalog) (New "en") "count"
      [Value.int 1] "en" [Value.int 1]
      [("count", Value.float64 0x4008000000000000), ("hello", Value.string "Hi")]
      (Value.float64 0x4008000000000000) rfl rfl rfl rfl rfl⟩

/-! ## C10: the namespace of a visited file -/

theorem Ext_json (p : List Char) : filepath.Ext ⟨p ++ ".json".data⟩ = ".json" := by
  simp [filepath.Ext, filepath.Ext.scan, filepath.Separator]

/-- When the visited path is the root as given, one slash, and a relative path
ending in `.json`, the derived name is that relative path without the suffix. -/
theorem Load.name_of_root_prefix (root rel : List Char) :
    Load.name ⟨root⟩ ⟨root ++ ('/' :: rel ++ ".json".data)⟩ = .ok ⟨rel⟩ := by
  have hcut : sliceFrom ⟨root ++ ('/' :: rel ++ ".json".data)⟩ (String.utf8ByteSize ⟨root⟩)
      = .ok ⟨'/' :: rel ++ ".json".data⟩ := by
    unfold sliceFrom
    have hle : ¬ String.utf8ByteSize ⟨root⟩
        > String.utf8ByteSize ⟨root ++ ('/' :: rel ++ ".json".data)⟩ := by
      simp [String.utf8ByteSize_mk, String.utf8Len_append]
    rw [if_neg hle]
    have := String.extract_of_valid root ('/' :: rel ++ ".json".data) []
    simp only [List.append_nil] at this
    simp only [String.endPos_eq, String.utf8ByteSize_mk, String.utf8Len_append]
    rw [← String.utf8Len_append]
    exact congrArg Except.ok this
  have hext : filepath.Ext ⟨root ++ ('/' :: rel ++ ".json".data)⟩ = ".json" := by
    have := Ext_json (root ++ '/' :: rel)
    simpa using this
  unfold Load.name
  rw [hcut, hext]
  simp [filepath.ToSlash, filepath.Separator, strings.TrimPrefix, strings.TrimSuffix]

/-- C10: the code departs from the claim for a root written with a leading
`./`. `filepath.Walk` builds the paths below the root with `filepath.Join`,
which cleans them, so for the root `./R` the file `admin/es.json` is visited as
`R/admin/es.json`; cutting `len("./R")` bytes off that path registers the file
under `dmin/es`, not `admin/es`. For the roots `R` and `R/` the name is
`admin/es`. -/
theorem C10_dot_slash_root_namespace :
    Walk.path "./R" ["admin", "es.json"] = "R/admin/es.json"
      ∧ filepath.Ext "R/admin/es.json" = ".json"
      ∧ Load.name "./R" (Walk.path "./R" ["admin", "es.json"]) = .ok "dmin/es"
      ∧ Load.name "R" (Walk.path "R" ["admin", "es.json"]) = .ok "admin/es"
      ∧ Load.name "R/" (Walk.path "R/" ["admin", "es.json"]) = .ok "admin/es" := by
  refine ⟨by decide, by decide, by decide, by decide, by decide⟩

/-! ## Lemmas on the catalog as a map -/

theorem lookup_set_self (data : Catalog) (name : String) (l : Option language) :
    (data.set name l).lookup name = some l := by
  induction data with
  | nil => simp [Catalog.set, List.lookup]
  | cons p ps ih =>
    obtain ⟨k, v⟩ := p
    by_cases hk : k = name
    · subst hk
      simp [Catalog.set, List.lookup]
    · have h1 : (k == name) = false := by simpa using hk
      have h2 : (name == k) = false := by simpa using fun h => hk h.symm
      simp [Catalog.set, List.lookup, h1, h2, ih]

theorem lookup_set_other (data : Catalog) (name other : String) (l : Option language)
    (h : other ≠ name) : (data.set name l).lookup other = data.lookup other := by
  induction data with
  | nil =>
    have h2 : (other == name) = false := by simpa using h
    simp [Catalog.set, List.lookup, h2]
  | cons p ps ih =>
    obtain ⟨k, v⟩ := p
    by_cases hk : k = name
    · subst hk
      have h2 : (other == k) = false := by simpa using h
      simp [Catalog.set, List.lookup, h2]
    · have h1 : (k == name) = false := by simpa using hk
      by_cases ho : other = k
      · subst ho
        simp [Catalog.set, List.lookup, h1]
      · have h3 : (other == k) = false := by simpa using ho
        simp [Catalog.set, List.lookup, h1, h3, ih]

/-- A name no later assignment touches keeps its binding. -/
theorem lookup_setAll_other (bs : List (String × Decoded)) (data : Catalog) (L : String)
    (h : L ∉ bs.map Prod.fst) :
    (bs.foldl (fun d b => Catalog.set d b.1 b.2.table) data).lookup L = data.lookup L := by
  induction bs generalizing data with
  | nil => rfl
  | cons b rest ih =>
    simp only [List.map_cons, List.mem_cons, not_or] at h
    rw [List.foldl_cons, ih _ h.2, lookup_set_other _ _ _ _ h.1]

/-- Every binding after the assignments was there before or comes from one of
the assignments. -/
theorem lookup_setAll_source (bs : List (String × Decoded)) (data : Catalog) (L : String)
    (l : Option language)
    (h : (bs.foldl (fun d b => Catalog.set d b.1 b.2.table) data).lookup L = some l) :
    data.lookup L = some l ∨ ∃ d, (L, d) ∈ bs ∧ d.table = l := by
  induction bs generalizing data with
  | nil => exact Or.inl h
  | cons b rest ih =>
    rw [List.foldl_cons] at h
    rcases ih _ h with h1 | ⟨d, hd, hl⟩
    · by_cases hL : L = b.1
      · subst hL
        rw [lookup_set_self] at h1
        exact Or.inr ⟨b.2, by simp, Option.some.inj h1⟩
      · rw [lookup_set_other _ _ _ _ hL] at h1
        exact Or.inl h1
    · exact Or.inr ⟨d, List.mem_cons_of_mem _ hd, hl⟩

/-- Every assigned name is bound afterwards, to the table of one of its
assignments. -/
theorem lookup_setAll_bound (bs : List (String × Decoded)) (data : Catalog) (L : String)
    (h : L ∈ bs.map Prod.fst) :
    ∃ d, (L, d) ∈ bs ∧
      (bs.foldl (fun d b => Catalog.set d b.1 b.2.table) data).lookup L = some d.table := by
  induction bs generalizing data with
  | nil => simp at h
  | cons b rest ih =>
    rw [List.foldl_cons]
    by_cases hr : L ∈ rest.map Prod.fst
    · obtain ⟨d, hd, hl⟩ := ih (Catalog.set data b.1 b.2.table) hr
      exact ⟨d, List.mem_cons_of_mem _ hd, hl⟩
    · have hb : L = b.1 := by
        simp only [List.map_cons, List.mem_cons] at h
        rcases h with h | h
        · exact h
        · exact absurd h hr
      subst hb
      refine ⟨b.2, by simp, ?_⟩
      rw [lookup_setAll_other rest _ _ hr, lookup_set_self]

/-- With pairwise distinct names, every assignment is in the catalog
afterwards. -/
theorem lookup_setAll_distinct (bs : List (String × Decoded)) (data : Catalog) (L : String)
    (d : Decoded) (hn : (bs.map Prod.fst).Nodup) (h : (L, d) ∈ bs) :
    (bs.foldl (fun d b => Catalog.set d b.1 b.2.table) data).lookup L = some d.table := by
  induction bs generalizing data with
  | nil => simp at h
  | cons b rest ih =>
    rw [List.map_cons, List.nodup_cons] at hn
    rw [List.foldl_cons]
    rcases List.mem_cons.1 h with hb | hr
    · subst hb
      rw [lookup_setAll_other rest _ _ hn.1, lookup_set_self]
    · exact ih _ hn.2 hr

/-! ## Lemmas on the walk of `Load` -/

/-- A call that meets a file-system error makes the walk function return that
error and leave the package state as it is. -/
theorem walkFn_fsError (pathDir : String) (w : World) (c : Call) (e : OsError)
    (h : c.fsError = some e) : Load.walkFn pathDir w c = (.ok (some e), w) := by
  cases c with
  | failed path err =>
    simp only [Call.fsError, Option.some.injEq] at h
    simp [Load.walkFn, h]
  | directory path => simp [Call.fsError] at h
  | file path read =>
    cases read with
    | ok d => simp [Call.fsError] at h
    | error err =>
      by_cases hx : filepath.Ext path = ".json"
      · simp only [Call.fsError, hx, if_true, Option.some.injEq] at h
        simp [Load.walkFn, hx, h]
      · simp [Call.fsError, hx] at h

/-- The walk function returns nil exactly on a call that meets no file-system
error and whose file, if it is registered, has a name. -/
theorem walkFn_nil_iff (pathDir : String) (w : World) (c : Call) :
    (Load.walkFn pathDir w c).1 = .ok none
      ↔ c.fsError = none ∧ Load.unnamed pathDir c = false := by
  cases c with
  | failed path err => simp [Load.walkFn, Call.fsError]
  | directory path => simp [Load.walkFn, Call.fsError, Load.unnamed]
  | file path read =>
    by_cases hx : filepath.Ext path = ".json"
    · cases read with
      | error err => simp [Load.walkFn, Call.fsError, hx]
      | ok d =>
        cases hn : Load.name pathDir path with
        | error f => simp [Load.walkFn, Call.fsError, Load.unnamed, hx, hn]
        | ok name => simp [Load.walkFn, Call.fsError, Load.unnamed, hx, hn]
    · cases read with
      | error err => simp [Load.walkFn, Call.fsError, Load.unnamed, hx]
      | ok d => simp [Load.walkFn, Call.fsError, Load.unnamed, hx]

/-- When the walk function returns nil, the catalog has gained the binding of
the call, if the call has one, and the debug flag is as before. -/
theorem walkFn_nil_state (pathDir : String) (w : World) (c : Call)
    (h : (Load.walkFn pathDir w c).1 = .ok none) :
    (Load.walkFn pathDir w c).2.data
        = ((Load.binding pathDir c).toList).foldl
            (fun d b => Catalog.set d b.1 b.2.table) w.data
      ∧ (Load.walkFn pathDir w c).2.debug = w.debug := by
  cases c with
  | failed path err => simp [Load.walkFn] at h
  | directory path => simp [Load.walkFn, Load.binding]
  | file path read =>
    by_cases hx : filepath.Ext path = ".json"
    · cases read with
      | error err => simp [Load.walkFn, hx] at h
      | ok d =>
        cases hn : Load.name pathDir path with
        | error f => simp [Load.walkFn, hx, hn] at h
        | ok name => cases d <;> simp [Load.walkFn, Load.binding, hx, hn]
    · cases read with
      | error err => simp [Load.walkFn, Load.binding, hx]
      | ok d => simp [Load.walkFn, Load.binding, hx]

theorem run_cons_nil (pathDir : String) (c : Call) (cs : List Call) (w : World)
    (h : (Load.walkFn pathDir w c).1 = .ok none) :
    Walk.run (Load.walkFn pathDir) (c :: cs) w
      = Walk.run (Load.walkFn pathDir) cs (Load.walkFn pathDir w c).2 := by
  rw [Walk.run]
  generalize Load.walkFn pathDir w c = r at h
  obtain ⟨r1, r2⟩ := r
  simp only at h
  subst h
  rfl

theorem run_cons_stop (pathDir : String) (c : Call) (cs : List Call) (w : World)
    (h : (Load.walkFn pathDir w c).1 ≠ .ok none) :
    Walk.run (Load.walkFn pathDir) (c :: cs) w = Load.walkFn pathDir w c := by
  rw [Walk.run]
  generalize Load.walkFn pathDir w c = r at h
  obtain ⟨r1, r2⟩ := r
  simp only at h
  cases r1 with
  | error f => rfl
  | ok o =>
    cases o with
    | none => exact absurd rfl h
    | some e => rfl

/-- A walk over calls that meet no file-system error and have names returns
nil, and the catalog gains the bindings of the calls in order. -/
theorem run_clean (pathDir : String) (calls : List Call) (w : World)
    (h : ∀ c ∈ calls, c.fsError = none ∧ Load.unnamed pathDir c = false) :
    (Walk.run (Load.walkFn pathDir) calls w).1 = .ok none
      ∧ (Walk.run (Load.walkFn pathDir) calls w).2.data
        = (Load.bindings pathDir calls).foldl (fun d b => Catalog.set d b.1 b.2.table) w.data
      ∧ (Walk.run (Load.walkFn pathDir) calls w).2.debug = w.debug := by
  induction calls generalizing w with
  | nil => exact ⟨rfl, rfl, rfl⟩
  | cons c cs ih =>
    have hc := (walkFn_nil_iff pathDir w c).2 (h c (List.mem_cons_self _ _))
    have hs := walkFn_nil_state pathDir w c hc
    have hrest := ih (Load.walkFn pathDir w c).2 fun c' hc' => h c' (List.mem_cons_of_mem _ hc')
    rw [run_cons_nil pathDir c cs w hc]
    refine ⟨hrest.1, ?_, ?_⟩
    · rw [hrest.2.1, hs.1]
      unfold Load.bindings
      cases hb : Load.binding pathDir c with
      | none => simp [List.filterMap_cons, hb]
      | some b => simp [List.filterMap_cons, hb]
    · rw [hrest.2.2, hs.2]

/-- A walk that returns nil met no file-system error and no file without a
name. -/
theorem run_nil_inv (pathDir : String) (calls : List Call) (w : World)
    (h : (Walk.run (Load.walkFn pathDir) calls w).1 = .ok none) :
    ∀ c ∈ calls, c.fsError = none ∧ Load.unnamed pathDir c = false := by
  induction calls generalizing w with
  | nil => intro c hc; simp at hc
  | cons c cs ih =>
    by_cases hc : (Load.walkFn pathDir w c).1 = .ok none
    · rw [run_cons_nil pathDir c cs w hc] at h
      intro c' hc'
      rcases List.mem_cons.1 hc' with rfl | hin
      · exact (walkFn_nil_iff pathDir w c').1 hc
      · exact ih _ h c' hin
    · rw [run_cons_stop pathDir c cs w hc] at h
      exact absurd h hc

/-- A walk stops at the first call that meets a file-system error: it returns
that error and leaves the state reached by the calls before it. -/
theorem run_stops (pathDir : String) (pre : List Call) (c : Call) (post : List Call)
    (w : World) (e : OsError)
    (hpre : ∀ c' ∈ pre, c'.fsError = none ∧ Load.unnamed pathDir c' = false)
    (hc : c.fsError = some e) :
    Walk.run (Load.walkFn pathDir) (pre ++ c :: post) w
      = (.ok (some e), (Walk.run (Load.walkFn pathDir) pre w).2) := by
  induction pre generalizing w with
  | nil =>
    have hw := walkFn_fsError pathDir w c e hc
    rw [List.nil_append, run_cons_stop pathDir c post w (by rw [hw]; simp), hw]
    rfl
  | cons a rest ih =>
    have ha := (walkFn_nil_iff pathDir w a).2 (hpre a (List.mem_cons_self _ _))
    rw [List.cons_append, run_cons_nil pathDir a _ w ha, run_cons_nil pathDir a rest w ha]
    exact ih _ fun c' hc' => hpre c' (List.mem_cons_of_mem _ hc')

/-- The bindings of a sequence of calls are those of its `.json` files that
were read and have a name. -/
theorem mem_bindings (pathDir : String) (calls : List Call) (L : String) (d : Decoded) :
    (L, d) ∈ Load.bindings pathDir calls
      ↔ ∃ path, Call.file path (.ok d) ∈ calls ∧ filepath.Ext path = ".json"
          ∧ Load.name pathDir path = .ok L := by
  unfold Load.bindings
  rw [List.mem_filterMap]
  constructor
  · rintro ⟨c, hc, hb⟩
    cases c with
    | failed path err => simp [Load.binding] at hb
    | directory path => simp [Load.binding] at hb
    | file path read =>
      cases read with
      | error err => simp [Load.binding] at hb
      | ok d' =>
        by_cases hx : filepath.Ext path = ".json"
        · cases hn : Load.name pathDir path with
          | error f => simp [Load.binding, hx, hn] at hb
          | ok name =>
            simp only [Load.binding, hx, hn, if_true, Option.some.injEq, Prod.mk.injEq] at hb
            obtain ⟨rfl, rfl⟩ := hb
            exact ⟨path, hc, hx, hn⟩
        · simp [Load.binding, hx] at hb
  · rintro ⟨path, hc, hx, hn⟩
    exact ⟨_, hc, by simp [Load.binding, hx, hn]⟩

/-- The walk function looks at the package state only to extend it: its return
value does not depend on the state, and the catalog after it only on the
catalog before. -/
theorem walkFn_congr (pathDir : String) (w w' : World) (c : Call) (h : w.data = w'.data) :
    (Load.walkFn pathDir w c).1 = (Load.walkFn pathDir w' c).1
      ∧ (Load.walkFn pathDir w c).2.data = (Load.walkFn pathDir w' c).2.data := by
  cases c with
  | failed path err => simp [Load.walkFn, h]
  | directory path => simp [Load.walkFn, h]
  | file path read =>
    by_cases hx : filepath.Ext path = ".json"
    · cases read with
      | error err => simp [Load.walkFn, hx, h]
      | ok d =>
        cases hn : Load.name pathDir path with
        | error f => simp [Load.walkFn, hx, hn, h]
        | ok name => cases d <;> simp [Load.walkFn, hx, hn, h]
    · cases read with
      | error err => simp [Load.walkFn, hx, h]
      | ok d => simp [Load.walkFn, hx, h]

theorem run_congr (pathDir : String) (calls : List Call) (w w' : World)
    (h : w.data = w'.data) :
    (Walk.run (Load.walkFn pathDir) calls w).1 = (Walk.run (Load.walkFn pathDir) calls w').1
      ∧ (Walk.run (Load.walkFn pathDir) calls w).2.data
        = (Walk.run (Load.walkFn pathDir) calls w').2.data := by
  induction calls generalizing w w' with
  | nil => exact ⟨rfl, h⟩
  | cons c cs ih =>
    have hc := walkFn_congr pathDir w w' c h
    by_cases hn : (Load.walkFn pathDir w c).1 = .ok none
    · have hn' : (Load.walkFn pathDir w' c).1 = .ok none := hc.1 ▸ hn
      rw [run_cons_nil pathDir c cs w hn, run_cons_nil pathDir c cs w' hn']
      exact ih _ _ hc.2
    · have hn' : (Load.walkFn pathDir w' c).1 ≠ .ok none := hc.1 ▸ hn
      rw [run_cons_stop pathDir c cs w hn, run_cons_stop pathDir c cs w' hn']
      exact hc

/-- What `Load` returns and the catalog it leaves do not depend on the package
state it starts from. -/
theorem Load_fresh (w w' : World) (root : String) (tree : Node) :
    (Load w root tree).1 = (Load w' root tree).1
      ∧ (Load w root tree).2.data = (Load w' root tree).2.data :=
  run_congr root (Walk.calls root tree) _ _ rfl

/-- After a `Load` that returns nil, the catalog is the sequence of bindings of
the calls, assigned in order to the empty map. -/
theorem Load_nil_data (w : World) (root : String) (tree : Node)
    (h : (Load w root tree).1 = .ok none) :
    (Load w root tree).2.data
      = (Load.bindings root (Walk.calls root tree)).foldl
          (fun d b => Catalog.set d b.1 b.2.table) [] :=
  (run_clean root (Walk.calls root tree) _ (run_nil_inv root _ _ h)).2.1

theorem dataIndex_some_iff (data : Catalog) (L : String) (t : language) :
    dataIndex data L = some t ↔ data.lookup L = some (some t) := by
  unfold dataIndex
  cases data.lookup L with
  | none => simp
  | some o => simp

/-- A table found in a catalog built from bindings is the table one of the
bound files decodes to. -/
theorem table_source (bs : List (String × Decoded)) (L : String) (t : language)
    (h : dataIndex (bs.foldl (fun d b => Catalog.set d b.1 b.2.table) []) L = some t) :
    ∃ d, (L, d) ∈ bs ∧ d.table = some t := by
  rw [dataIndex_some_iff] at h
  rcases lookup_setAll_source bs [] L (some t) h with h0 | h1
  · simp at h0
  · exact h1

/-! ## C11: `Load` replaces the catalog -/

/-- A namespace without a table behaves as an absent one: every lookup under
it is a miss, and naming it as last argument is no language override. -/
theorem unregistered_behaviour (data : Catalog) (L : String) (h : dataIndex data L = none) :
    (∀ key, isMiss data L key = true)
      ∧ (∀ (i : I18N) (args : List Value),
          Print.override data i (args ++ [Value.string L])
            = .ok (i.language, args ++ [Value.string L])) :=
  ⟨fun key => by simp [isMiss, h], fun i args => override_snoc_unregistered data i args L h⟩

/-- When no call of the walk meets a file-system error and every `.json` file
has a namespace, that is the name derivation does not panic, `Load` returns
nil. If moreover the namespaces of the files are pairwise distinct,
every file that decodes to an object has its namespace registered with that
table, and the namespace of every file that is not valid JSON has no table, so
that a lookup under it is a miss and naming it as last argument of `Print` is
no override. Every table in the catalog is the table some `.json` file decodes
to. -/
theorem Load_without_fs_error (w : World) (root : String) (tree : Node)
    (hfs : ∀ c ∈ Walk.calls root tree, c.fsError = none)
    (hnamed : ∀ c ∈ Walk.calls root tree, Load.unnamed root c = false) :
    (Load w root tree).1 = .ok none
    ∧ (((Load.bindings root (Walk.calls root tree)).map Prod.fst).Nodup →
        ∀ path d L, Call.file path (.ok d) ∈ Walk.calls root tree →
          filepath.Ext path = ".json" → Load.name root path = .ok L →
          (∀ t, d = Decoded.object t → dataIndex (Load w root tree).2.data L = some t)
          ∧ (∀ msg, d = Decoded.invalid msg →
              dataIndex (Load w root tree).2.data L = none
              ∧ (∀ key, isMiss (Load w root tree).2.data L key = true)
              ∧ (∀ (i : I18N) (args : List Value),
                  Print.override (Load w root tree).2.data i (args ++ [Value.string L])
                    = .ok (i.language, args ++ [Value.string L]))))
    ∧ (∀ L t, dataIndex (Load w root tree).2.data L = some t →
        ∃ path d, Call.file path (.ok d) ∈ Walk.calls root tree
          ∧ filepath.Ext path = ".json" ∧ Load.name root path = .ok L
          ∧ d.table = some t) := by
  have hclean := run_clean root (Walk.calls root tree) { w with data := [] }
    fun c hc => ⟨hfs c hc, hnamed c hc⟩
  have hret : (Load w root tree).1 = .ok none := hclean.1
  have hdata := Load_nil_data w root tree hret
  refine ⟨hret, ?_, ?_⟩
  · intro hnodup path d L hc hx hn
    have hm : (L, d) ∈ Load.bindings root (Walk.calls root tree) :=
      (mem_bindings root _ L d).2 ⟨path, hc, hx, hn⟩
    have hl := lookup_setAll_distinct _ [] L d hnodup hm
    rw [← hdata] at hl
    constructor
    · rintro t rfl
      exact (dataIndex_some_iff _ L t).2 hl
    · rintro msg rfl
      have hnone : dataIndex (Load w root tree).2.data L = none := by
        simp [dataIndex, hl, Decoded.table]
      exact ⟨hnone, unregistered_behaviour _ L hnone⟩
  · intro L t ht
    rw [hdata] at ht
    obtain ⟨d, hd, hdt⟩ := table_source _ L t ht
    obtain ⟨path, hc, hx, hn⟩ := (mem_bindings root _ L d).1 hd
    exact ⟨path, d, hc, hx, hn, hdt⟩

/-- The sample tree under the root `R`, with the valid file `en.json` and the
malformed file `bad.json`: `Load` returns nil, `en` has its table and `bad` has
none. -/
theorem Load_without_fs_error_sample :
    (Load (worldOf helloCatalog) "R" sampleTree).1 = .ok none
      ∧ dataIndex (Load (worldOf helloCatalog) "R" sampleTree).2.data "en"
          = some [("hello", Value.string "Hi")]
      ∧ dataIndex (Load (worldOf helloCatalog) "R" sampleTree).2.data "bad" = none :=
  have h := Load_without_fs_error (worldOf helloCatalog) "R" sampleTree
    (by decide) (by decide)
  ⟨h.1,
    (h.2.1 (by decide) "R/en.json" (Decoded.object [("hello", Value.string "Hi")]) "en"
      (by simp [Walk.calls, Walk.callsIn, sampleTree, filepath.Join]; decide)
      (by decide) (by decide)).1 _ rfl,
    ((h.2.1 (by decide) "R/bad.json" (Decoded.invalid "unexpected end of JSON input") "bad"
      (by simp [Walk.calls, Walk.callsIn, sampleTree, filepath.Join]; decide)
      (by decide) (by decide)).2 _ rfl).1⟩

/-- C12: the code departs from the claim for a root written with a leading
`./`. Under the root `./R` the tree holds the valid files `xa.json` and
`ya.json` and the malformed file `za.json`, and no call of the walk meets a
file-system error. The walk visits `R/xa.json`, `R/ya.json` and `R/za.json`,
and cutting `len("./R")` bytes off these paths derives the one name `a` for all
three: `Load` returns nil, but the assignment made for the malformed file
comes last and leaves `a` bound to the nil table, so neither valid file is
registered, under `xa`, `ya` or `a`. Under the longer root `./././././R` the
same tree makes `Load` panic on the slice instead of returning. -/
theorem C12_malformed_file_unregisters_valid_files :
    (∀ c ∈ Walk.calls "./R" collidingTree, c.fsError = none)
      ∧ (Walk.calls "./R" collidingTree).map
          (fun c => match c with
            | .failed path _ => path
            | .directory path => path
            | .file path _ => path)
          = ["./R", "R/xa.json", "R/ya.json", "R/za.json"]
      ∧ (Load.bindings "./R" (Walk.calls "./R" collidingTree)).map Prod.fst = ["a", "a", "a"]
      ∧ (Load (worldOf []) "./R" collidingTree).1 = .ok none
      ∧ (Load (worldOf []) "./R" collidingTree).2.data = [("a", none)]
      ∧ dataIndex (Load (worldOf []) "./R" collidingTree).2.data "xa" = none
      ∧ dataIndex (Load (worldOf []) "./R" collidingTree).2.data "ya" = none
      ∧ dataIndex (Load (worldOf []) "./R" collidingTree).2.data "a" = none
      ∧ (∀ c ∈ Walk.calls "./././././R" collidingTree, c.fsError = none)
      ∧ (Load (worldOf []) "./././././R" collidingTree).1 = .error Fault.sliceBounds := by
  refine ⟨by decide, by decide, by decide, by decide, rfl, rfl, rfl, rfl, by decide, by decide⟩

/-- C13: when the calls of the walk before a call `c` meet no file-system error
(and their files have namespaces) and `c` meets the error `err`, reported by
the walk for the entry or by `ioutil.ReadFile` on a `.json` file, then `Load`
returns `err`, the calls after `c` play no part, and the catalog is the one the
calls before `c` leave when run from the empty map: the names bound in it are
exactly the names derived from the `.json` files among those calls, whatever
the catalog was before. -/
theorem C13_fs_error_is_fatal (w : World) (root : String) (tree : Node)
    (pre : List Call) (c : Call) (post : List Call) (err : OsError)
    (hcalls : Walk.calls root tree = pre ++ c :: post)
    (hpre : ∀ c' ∈ pre, c'.fsError = none ∧ Load.unnamed root c' = false)
    (hc : c.fsError = some err) :
    (Load w root tree).1 = .ok (some err)
    ∧ (∀ post' : List Call,
        Walk.run (Load.walkFn root) (pre ++ c :: post') { w with data := [] }
          = Load w root tree)
    ∧ (Load w root tree).2.data
        = (Walk.run (Load.walkFn root) pre { w with data := [] }).2.data
    ∧ (∀ L, (∃ l, (Load w root tree).2.data.lookup L = some l)
        ↔ ∃ path d, Call.file path (.ok d) ∈ pre
            ∧ filepath.Ext path = ".json" ∧ Load.name root path = .ok L)
    ∧ (∀ w' : World, (Load w' root tree).2.data = (Load w root tree).2.data) := by
  have hrun : Load w root tree
      = (.ok (some err), (Walk.run (Load.walkFn root) pre { w with data := [] }).2) := by
    unfold Load
    rw [hcalls]
    exact run_stops root pre c post _ err hpre hc
  have hdata := (run_clean root pre { w with data := [] } hpre).2.1
  refine ⟨by rw [hrun], fun post' => ?_, by rw [hrun], fun L => ?_,
    fun w' => (Load_fresh w' w root tree).2⟩
  · rw [hrun]
    exact run_stops root pre c post' _ err hpre hc
  · rw [hrun]
    simp only
    rw [hdata]
    constructor
    · rintro ⟨l, hl⟩
      rcases lookup_setAll_source _ [] L l hl with h0 | ⟨d, hd, _⟩
      · simp at h0
      · obtain ⟨path, hp⟩ := (mem_bindings root _ L d).1 hd
        exact ⟨path, d, hp⟩
    · rintro ⟨path, d, hp⟩
      have hm : (L, d) ∈ Load.bindings root pre := (mem_bindings root _ L d).2 ⟨path, hp⟩
      have hk : L ∈ (Load.bindings root pre).map Prod.fst := List.mem_map.2 ⟨(L, d), hm, rfl⟩
      obtain ⟨d', _, hl⟩ := lookup_setAll_bound _ [] L hk
      exact ⟨_, hl⟩

/-- Witness of C13: in the tree where `fr.json` cannot be read, `Load` returns
the error of the read. -/
theorem C13_witness :
    (Load (worldOf helloCatalog) "R" brokenTree).1 = .ok (some "permission denied") :=
  (C13_fs_error_is_fatal (worldOf helloCatalog) "R" brokenTree
    [Call.directory "R",
      Call.file "R/en.json" (.ok (Decoded.object [("hello", Value.string "Hi")]))]
    (Call.file "R/fr.json" (.error "permission denied"))
    [Call.file "R/it.json" (.ok (Decoded.object [("hello", Value.string "Ciao")]))]
    "permission denied" rfl (by decide) (by decide)).1

/-! ## C14: the translator calls leave the state as it is -/

theorem translate_frame (Sprintf : String → List Value → String) (w : World) (i : I18N)
    (lang str : String) (args : List Value) :
    (Print.translate Sprintf w i lang str args).world.data = w.data
      ∧ (Print.translate Sprintf w i lang str args).world.debug = w.debug
      ∧ (Print.translate Sprintf w i lang str args).self = i := by
  unfold Print.translate
  by_cases hm : isMiss w.data lang str = true
  · by_cases hc : (decide (args.length > 0) && strings.Contains str "%") = true
    · by_cases hd : w.debug = true <;> simp [hm, hc, hd]
    · by_cases hd : w.debug = true <;> simp [hm, hc, hd]
  · by_cases hc : (decide (args.length > 0) && strings.Contains str "%") = true
    · cases assertString (langIndex (dataIndex w.data lang) str) <;> simp [hm, hc]
    · cases assertString (langIndex (dataIndex w.data lang) str) <;> simp [hm, hc]

theorem Print_frame (Sprintf : String → List Value → String) (w : World) (i : I18N)
    (str : String) (args : List Value) :
    (Print Sprintf w i str args).world.data = w.data
      ∧ (Print Sprintf w i str args).world.debug = w.debug
      ∧ (Print Sprintf w i str args).self = i := by
  unfold Print
  cases ho : Print.override w.data i args with
  | error e => exact ⟨rfl, rfl, rfl⟩
  | ok p =>
    obtain ⟨lang, rest⟩ := p
    exact translate_frame Sprintf w i lang str rest

theorem Plural_frame (Sprintf : String → List Value → String) (w : World) (i : I18N)
    (value : Int) (zero one many : String) (values : List Value) :
    (Plural Sprintf w i value zero one many values).world.data = w.data
      ∧ (Plural Sprintf w i value zero one many values).world.debug = w.debug
      ∧ (Plural Sprintf w i value zero one many values).self = i := by
  cases values with
  | nil => exact ⟨rfl, rfl, rfl⟩
  | cons first tail =>
    cases first with
    | string s =>
      rw [Plural_eq_Print]
      exact Print_frame Sprintf w i _ _
    | nil => exact ⟨rfl, rfl, rfl⟩
    | int n => exact ⟨rfl, rfl, rfl⟩
    | bool b => exact ⟨rfl, rfl, rfl⟩
    | float64 x => exact ⟨rfl, rfl, rfl⟩
    | array x => exact ⟨rfl, rfl, rfl⟩
    | object x => exact ⟨rfl, rfl, rfl⟩

/-- C14: for every catalog, translator, key and arguments, a `Print` or
`Plural` call (returning or not) leaves the catalog, the debug flag and the
translator with its current language unchanged; in particular `GetLang()`
after `Print(key, ..., L)` is what it was before the call. -/
theorem C14_translator_calls_read_only (Sprintf : String → List Value → String) (w : World)
    (i : I18N) (key : String) (args : List Value) (count : Int) (zero one many : String)
    (values : List Value) :
    ((Print Sprintf w i key args).world.data = w.data
        ∧ (Print Sprintf w i key args).world.debug = w.debug
        ∧ (Print Sprintf w i key args).self = i)
      ∧ ((Plural Sprintf w i count zero one many values).world.data = w.data
        ∧ (Plural Sprintf w i count zero one many values).world.debug = w.debug
        ∧ (Plural Sprintf w i count zero one many values).self = i)
      ∧ (∀ L : String,
          (Print Sprintf w i key (args ++ [Value.string L])).self.GetLang = i.GetLang) :=
  ⟨Print_frame Sprintf w i key args, Plural_frame Sprintf w i count zero one many values,
    fun L => by rw [(Print_frame Sprintf w i key (args ++ [Value.string L])).2.2]⟩

/-! ## C15: the language accessors -/

/-- C15: `New(n).GetLang()` is `n` for every string `n`; after `t.SetLang(m)`,
`t.GetLang()` is `m`; and with translators as allocated objects, `SetLang`
through one pointer changes `GetLang` through no other pointer, two
translators constructed one after the other having different pointers. -/
theorem C15_language_accessors :
    (∀ n : String, (New n).GetLang = n)
    ∧ (∀ (t : I18N) (m : String), (t.SetLang m).GetLang = m)
    ∧ (∀ (h : Heap) (n : String), Heap.GetLang (Heap.New h n).2 (Heap.New h n).1 = some n)
    ∧ (∀ (h : Heap) (p : Nat) (m : String), p < h.length →
        Heap.GetLang (Heap.SetLang h p m) p = some m)
    ∧ (∀ (h : Heap) (p q : Nat) (m : String), p ≠ q →
        Heap.GetLang (Heap.SetLang h p m) q = Heap.GetLang h q)
    ∧ (∀ (h : Heap) (n1 n2 m : String),
        (Heap.New h n1).1 ≠ (Heap.New (Heap.New h n1).2 n2).1
          ∧ Heap.GetLang
              (Heap.SetLang (Heap.New (Heap.New h n1).2 n2).2 (Heap.New h n1).1 m)
              (Heap.New (Heap.New h n1).2 n2).1 = some n2) := by
  have hset : ∀ (h : Heap) (p q : Nat) (m : String), p ≠ q →
      Heap.GetLang (Heap.SetLang h p m) q = Heap.GetLang h q := by
    intro h p q m hpq
    unfold Heap.GetLang Heap.SetLang
    cases hp : h[p]? with
    | none => rfl
    | some i => simp [List.getElem?_set_ne hpq]
  have hnew : ∀ (h : Heap) (n : String),
      Heap.GetLang (Heap.New h n).2 (Heap.New h n).1 = some n := by
    intro h n
    simp [Heap.GetLang, Heap.New, I18N.GetLang, New]
  refine ⟨fun n => rfl, fun t m => rfl, hnew, ?_, hset, ?_⟩
  · intro h p m hp
    unfold Heap.GetLang Heap.SetLang
    have hget : h[p]? = some h[p] := List.getElem?_eq_getElem hp
    rw [hget]
    simp [hp, I18N.SetLang, I18N.GetLang]
  · intro h n1 n2 m
    have hne : (Heap.New h n1).1 ≠ (Heap.New (Heap.New h n1).2 n2).1 := by
      simp [Heap.New]
    exact ⟨hne, by rw [hset _ _ _ m hne]; exact hnew _ n2⟩

/-- Witness of C15: two translators constructed for `en` and `fr`; `SetLang`
on the first leaves the second at `fr` and puts the first at `de`. -/
theorem C15_witness :
    Heap.GetLang (Heap.SetLang [New "en", New "fr"] 0 "de") 0 = some "de"
      ∧ Heap.GetLang (Heap.SetLang [New "en", New "fr"] 0 "de") 1
          = Heap.GetLang [New "en", New "fr"] 1 :=
  ⟨C15_language_accessors.2.2.2.1 [New "en", New "fr"] 0 "de" (by decide),
    C15_language_accessors.2.2.2.2.1 [New "en", New "fr"] 0 1 "de" (by decide)⟩

/-! ## C16: override and switching the translator -/

/-- The lookup uses the translator only to hand it back. -/
theorem translate_any_translator (Sprintf : String → List Value → String) (w : World)
    (i j : I18N) (lang str : String) (args : List Value) :
    (Print.translate Sprintf w i lang str args).ret
        = (Print.translate Sprintf w j lang str args).ret
      ∧ (Print.translate Sprintf w i lang str args).world
        = (Print.translate Sprintf w j lang str args).world := by
  unfold Print.translate
  by_cases hm : isMiss w.data lang str = true
  · by_cases hc : (decide (args.length > 0) && strings.Contains str "%") = true
    · simp [hm, hc]
    · simp [hm, hc]
  · by_cases hc : (decide (args.length > 0) && strings.Contains str "%") = true
    · cases assertString (langIndex (dataIndex w.data lang) str) <;> simp [hm, hc]
    · cases assertString (langIndex (dataIndex w.data lang) str) <;> simp [hm, hc]

/-- With arguments that are empty or end in a value that is neither nil nor the
name of a registered namespace, `t.Print(key, args..., L)` for a registered `L`
returns what `New(L).Print(key, args...)` returns, whatever the language of
`t`. -/
theorem Print_override_eq_switch (Sprintf : String → List Value → String) (w : World)
    (t : I18N) (key : String) (args : List Value) (L : String) (tab : language)
    (hL : dataIndex w.data L = some tab)
    (hnil : args.getLast? ≠ some Value.nil)
    (hreg : ∀ s, args.getLast? = some (Value.string s) → dataIndex w.data s = none) :
    (Print Sprintf w t key (args ++ [Value.string L])).ret
      = (Print Sprintf w (New L) key args).ret := by
  rw [Print_override_taken Sprintf w t key args L tab hL]
  have ho : Print.override w.data (New L) args = .ok (L, args) := by
    rcases List.eq_nil_or_concat args with rfl | ⟨init, last, rfl⟩
    · exact override_nil w.data (New L)
    · rw [List.concat_eq_append] at hnil hreg ⊢
      cases last with
      | nil => simp at hnil
      | string s =>
        exact override_snoc_unregistered w.data (New L) init s (hreg s (by simp))
      | int n => exact override_snoc_other w.data (New L) init _ rfl rfl
      | bool b => exact override_snoc_other w.data (New L) init _ rfl rfl
      | float64 x => exact override_snoc_other w.data (New L) init _ rfl rfl
      | array x => exact override_snoc_other w.data (New L) init _ rfl rfl
      | object x => exact override_snoc_other w.data (New L) init _ rfl rfl
  rw [Print_of_override Sprintf w (New L) key args L args ho]
  exact (translate_any_translator Sprintf w t (New L) L key args).1

/-- C16: the code departs from the claim for arguments that end in nil. With
the registered namespace `fr`, the arguments `[nil]` do not end in a string
naming a registered namespace, so the claim has `t.Print("hello", nil, "fr")`
and `New("fr").Print("hello", nil)` return the same; the first returns
`Bonjour`, the second panics in `reflect.Value.Type`. -/
theorem C16_nil_before_override :
    (Print fmt.Sprintf (worldOf helloCatalog) (New "en") "hello"
        [Value.nil, Value.string "fr"]).ret = .ok "Bonjour"
      ∧ (Print fmt.Sprintf (worldOf helloCatalog) (New "fr") "hello" [Value.nil]).ret
        = .error Fault.zeroValueType := by
  refine ⟨by decide, by decide⟩

/-! ## C17 and C18: the hit decided on the key, and the null value -/

/-- C17: on a hit with the string value `v`, `Print` returns `v` formatted
against the remaining arguments exactly when these are non-empty and the KEY
contains `%`, and `v` verbatim in every other case, whether or not `v` itself
contains `%`. -/
theorem C17_format_decided_on_key (Sprintf : String → List Value → String) (w : World)
    (i : I18N) (key : String) (args : List Value) (lang : String) (rest : List Value)
    (t : language) (v : String)
    (ho : Print.override w.data i args = .ok (lang, rest))
    (ht : dataIndex w.data lang = some t)
    (hv : t.lookup key = some (Value.string v)) :
    (rest ≠ [] ∧ '%' ∈ key.data → (Print Sprintf w i key args).ret = .ok (Sprintf v rest))
      ∧ (¬ (rest ≠ [] ∧ '%' ∈ key.data) → (Print Sprintf w i key args).ret = .ok v) := by
  rw [Print_of_override Sprintf w i key args lang rest ho,
    translate_hit Sprintf w i lang key rest t v ht hv]
  constructor
  · rintro ⟨hne, hk⟩
    simp [length_pos_of_ne_nil rest hne, (contains_percent_iff key).2 hk]
  · intro hnot
    by_cases hne : rest = []
    · subst hne
      simp
    · have hk : strings.Contains key "%" = false := by
        cases hc : strings.Contains key "%" with
        | false => rfl
        | true => exact absurd ⟨hne, (contains_percent_iff key).1 hc⟩ hnot
      simp [hk]

/-- Witness of C17: the value `Hi %s` under the key `greet` comes back
unformatted although an argument is given. -/
theorem C17_witness :
    (Print fmt.Sprintf (worldOf greetCatalog) (New "en") "greet" [Value.string "Ann"]).ret
      = .ok "Hi %s" :=
  (C17_format_decided_on_key fmt.Sprintf (worldOf greetCatalog) (New "en") "greet"
    [Value.string "Ann"] "en" [Value.string "Ann"] [("greet", Value.string "Hi %s")] "Hi %s"
    rfl rfl rfl).2 fun h => absurd h.2 (by decide)

/-- C18: when the table of the resolved language holds the key with the value
nil (JSON `null`), `Print` does not panic and returns the key, formatted
against the remaining arguments when these are non-empty and the key contains
`%`; this is what it returns in any state where the same language and
arguments are resolved and the key is absent from the table. -/
theorem C18_null_value_is_miss (Sprintf : String → List Value → String) (w : World)
    (i : I18N) (key : String) (args : List Value) (lang : String) (rest : List Value)
    (t : language)
    (ho : Print.override w.data i args = .ok (lang, rest))
    (ht : dataIndex w.data lang = some t)
    (hv : t.lookup key = some Value.nil) :
    (Print Sprintf w i key args).ret
        = .ok (if decide (rest.length > 0) && strings.Contains key "%"
            then Sprintf key rest else key)
      ∧ (∀ w' : World, Print.override w'.data i args = .ok (lang, rest) →
          Absent w'.data lang key →
          (Print Sprintf w' i key args).ret = (Print Sprintf w i key args).ret) := by
  have hmiss : isMiss w.data lang key = true := by
    simp [isMiss, ht, langIndex, hv, Value.isNil]
  have hret := translate_miss Sprintf w i lang key rest hmiss
  rw [Print_of_override Sprintf w i key args lang rest ho]
  refine ⟨hret, fun w' ho' habs => ?_⟩
  rw [Print_of_override Sprintf w' i key args lang rest ho', hret]
  exact translate_miss Sprintf w' i lang key rest (isMiss_of_absent w'.data lang key habs)

/-- Witness of C18: the key `later` stored with `null` under `en`. -/
theorem C18_witness :
    (Print fmt.Sprintf (worldOf [("en", some [("later", Value.nil)])]) (New "en") "later"
        []).ret = .ok "later" :=
  ((C18_null_value_is_miss fmt.Sprintf (worldOf [("en", some [("later", Value.nil)])])
    (New "en") "later" [] "en" [] [("later", Value.nil)] rfl rfl rfl).1).trans (by decide)

end I18n
